import Mathlib

/-!
Verification of the Polymarket agent's Market Discovery & Order Validation
Engine against its natural-language specification.

The repository contains two near-duplicate service implementations:
`polymarket-mcp/src/services/polymarket-service.ts` (embedded below in
namespace `McpService`) and a second version of the same service
(embedded in namespace `AltService`), plus the trading-agent request
validator (namespace `TradingAgent`).

JavaScript numbers are modelled as rationals (`ℚ`), JavaScript strings as
Lean `String`s, and absent / `undefined` fields as `Option`.  The JS
truthiness rule actually exercised by this code is: a string is falsy iff
it is empty, an array is always truthy, `undefined` is falsy.
-/

namespace Polymarket

/-- JS `a || b` for an optional string `a` with string default `b`:
`undefined` and the empty string are falsy. -/
def jsOrS (o : Option String) (d : String) : String :=
  match o with
  | some s => if s = "" then d else s
  | none => d

/-- Substring containment on character lists (JS `String.prototype.includes`). -/
def containsSub : List Char → List Char → Bool
  | [], needle => needle.isEmpty
  | hay@(_ :: t), needle => needle.isPrefixOf hay || containsSub t needle

/-- JS `s.includes(sub)`. -/
def jsIncludes (s sub : String) : Bool :=
  containsSub s.toList sub.toList

/-- JS `s.startsWith(pre)`. -/
def jsStartsWith (s pre : String) : Bool :=
  pre.toList.isPrefixOf s.toList

/-- JS `s.toLowerCase()` (ASCII, which is all this code base uses). -/
def jsToLower (s : String) : String :=
  String.mk (s.toList.map Char.toLower)

/-- Helper for `jsSplitSpace`: accumulate the current word (reversed). -/
def splitOnSpaceAux : List Char → List Char → List String
  | [], acc => [String.mk acc.reverse]
  | c :: t, acc =>
    if c = ' ' then String.mk acc.reverse :: splitOnSpaceAux t []
    else splitOnSpaceAux t (c :: acc)

/-- JS `s.split(" ")`: split on every single space, `"" ↦ [""]`. -/
def jsSplitSpace (s : String) : List String :=
  splitOnSpaceAux s.toList []

/-- Modelled from the spec: the repository's good-till-date (GTD) order
creation is absent from the source tree (only the README lists a
`CREATE_POLYMARKET_GTD_ORDER` tool); per the spec the expiration is
computed as `now + 1 minute + expirationMinutes*60s`, with times in
seconds. -/
def computeGtdExpiration (now expirationMinutes : ℤ) : ℤ :=
  now + 60 + expirationMinutes * 60

end Polymarket

namespace McpService

open Polymarket

/-- `OrderRequirements` as returned by the service's requirement checks. -/
structure OrderRequirements where
  canPlace : Bool
  balance : Option ℚ := none
  allowance : Option ℚ := none
  maxOrderSize : Option ℚ := none
  error : Option String := none
deriving Repr, DecidableEq

/-- The interpolated error string of `checkBuyOrderRequirements`. -/
def insufficientBalanceMsg (usdcBalance orderValue : ℚ) : String :=
  "Insufficient USDC balance. Balance: " ++ toString usdcBalance ++
    ", Required: " ++ toString orderValue

/-- `checkBuyOrderRequirements(orderValue)` of the mcp service, with the
USDC balance fetched from the exchange passed in as `usdcBalance`:
`canPlace = usdcBalance >= orderValue`,
`maxOrderSize = Math.min(usdcBalance, orderValue)`.  No allowance is
consulted anywhere in the function. -/
def checkBuyOrderRequirements (usdcBalance orderValue : ℚ) : OrderRequirements :=
  let canPlace := decide (usdcBalance ≥ orderValue)
  { canPlace := canPlace
    balance := some usdcBalance
    maxOrderSize := some (min usdcBalance orderValue)
    error := if canPlace then none else some (insufficientBalanceMsg usdcBalance orderValue) }

/-- The interpolated error string of `checkSellOrderRequirements`. -/
def insufficientTokenMsg (maxOrderSize : ℚ) : String :=
  "Insufficient token balance. Max sell size: " ++ toString maxOrderSize

/-- `checkSellOrderRequirements(tokenId, size)` of the mcp service.  The
held-token balance is the hard-coded placeholder `const balance = 0`
(the commented-out fetch is never made). -/
def checkSellOrderRequirements (tokenId : String) (size : ℚ) : OrderRequirements :=
  let tokenBalance : ℚ := 0
  let canPlace := decide (tokenBalance ≥ size)
  let maxOrderSize := min tokenBalance size
  { canPlace := canPlace
    balance := some tokenBalance
    maxOrderSize := some maxOrderSize
    error := if canPlace then none else some (insufficientTokenMsg maxOrderSize) }

structure ValidationDetails where
  orderValue : Option ℚ := none
  requestedSize : Option ℚ := none
  maxOrderSize : Option ℚ := none
  balance : Option ℚ := none
deriving Repr, DecidableEq

structure OrderDetails where
  tokenId : String
  price : ℚ
  size : ℚ
  side : String
  totalValue : ℚ
deriving Repr, DecidableEq

structure OrderResponse where
  success : Bool
  orderId : Option String := none
  error : Option String := none
  message : Option String := none
  orderDetails : Option OrderDetails := none
  validationDetails : Option ValidationDetails := none
deriving Repr, DecidableEq

/-- Outcome of an order-creation call up to the exchange boundary: either
validation halts with a failure `OrderResponse` before the exchange's
`createOrder`/`postOrder` are invoked, or an order with the given details
is built and submitted. -/
inductive OrderAttempt where
  | halted (response : OrderResponse)
  | submitted (details : OrderDetails)
deriving Repr, DecidableEq

/-- `createBuyOrder(tokenId, price, size, options)` of the mcp service, with
the fetched USDC balance passed in as `usdcBalance`.  Unless
`options.skipValidation` is set it runs `checkBuyOrderRequirements` on
`price * size` and halts with a failure response when `canPlace` is false. -/
def createBuyOrder (usdcBalance : ℚ) (tokenId : String) (price size : ℚ)
    (skipValidation : Bool) : OrderAttempt :=
  if skipValidation = false then
    let orderValue := price * size
    let requirements := checkBuyOrderRequirements usdcBalance orderValue
    if requirements.canPlace = false then
      .halted
        { success := false
          error := some (jsOrS requirements.error "Order validation failed")
          validationDetails := some
            { orderValue := some orderValue
              maxOrderSize := requirements.maxOrderSize
              balance := requirements.balance } }
    else
      .submitted
        { tokenId := tokenId, price := price, size := size, side := "BUY"
          totalValue := price * size }
  else
    .submitted
      { tokenId := tokenId, price := price, size := size, side := "BUY"
        totalValue := price * size }

/-- `createSellOrder(tokenId, price, size, options)` of the mcp service. -/
def createSellOrder (tokenId : String) (price size : ℚ)
    (skipValidation : Bool) : OrderAttempt :=
  if skipValidation = false then
    let requirements := checkSellOrderRequirements tokenId size
    if requirements.canPlace = false then
      .halted
        { success := false
          error := some (jsOrS requirements.error "Sell order validation failed")
          validationDetails := some
            { requestedSize := some size
              maxOrderSize := requirements.maxOrderSize
              balance := requirements.balance } }
    else
      .submitted
        { tokenId := tokenId, price := price, size := size, side := "SELL"
          totalValue := price * size }
  else
    .submitted
      { tokenId := tokenId, price := price, size := size, side := "SELL"
        totalValue := price * size }

end McpService

namespace TradingAgent

open Polymarket

/-- The trading agent's `TradingRequest`, with JS `undefined`
`conditionId`/`availableOutcomes` modelled as `""`/`[]` (both falsy). -/
structure TradingRequest where
  conditionId : String
  marketQuestion : String
  action : String
  availableOutcomes : List String
deriving Repr, DecidableEq

/-- Result record of `validateTradingRequest`. -/
structure RequestValidation where
  valid : Bool
  error : Option String := none
  suggestedActions : Option (List String) := none
deriving Repr, DecidableEq

/-- `validateTradingRequest(request)` of the trading agent: rejects a
missing `conditionId`, a `conditionId` that does not start with `"0x"`,
and an empty `availableOutcomes` list. -/
def validateTradingRequest (request : TradingRequest) : RequestValidation :=
  if request.conditionId = "" then
    { valid := false
      error := some "No market selected for trading"
      suggestedActions := some ["select_market_for_trading", "search_markets"] }
  else if jsStartsWith request.conditionId "0x" = false then
    { valid := false
      error := some "Invalid conditionId format - must start with 0x"
      suggestedActions := some ["select_market_for_trading"] }
  else if request.availableOutcomes.isEmpty then
    { valid := false
      error := some "No trading outcomes available"
      suggestedActions := some ["select_market_for_trading"] }
  else
    { valid := true }

/-- Where `executeAction` routes a request: either it is rejected by
`validateTradingRequest` before any trading handler runs, or it reaches
one of the handlers (`handlePriceCheck`, `handleBuyOrder`,
`handleSellOrder`, `handleBalanceCheck`, `showTradingOptions`). -/
inductive RoutedAction where
  | rejected (error : Option String) (suggestedActions : Option (List String))
  | priceCheck
  | buyOrder
  | sellOrder
  | balanceCheck
  | showOptions
deriving Repr, DecidableEq

/-- The validation-and-routing logic of the trading agent's
`executeAction`: validation failure short-circuits with a failure
response; otherwise the request is routed by keywords of `action`. -/
def executeAction (request : TradingRequest) : RoutedAction :=
  let v := validateTradingRequest request
  if v.valid = false then .rejected v.error v.suggestedActions
  else if jsIncludes (jsToLower request.action) "price" then .priceCheck
  else if jsIncludes (jsToLower request.action) "buy" then .buyOrder
  else if jsIncludes (jsToLower request.action) "sell" then .sellOrder
  else if jsIncludes (jsToLower request.action) "balance" then .balanceCheck
  else .showOptions

end TradingAgent

namespace Polymarket

/-- Skip JSON whitespace. -/
def skipWs : List Char → List Char
  | [] => []
  | c :: t => if c = ' ' ∨ c = '\t' ∨ c = '\n' ∨ c = '\r' then skipWs t else c :: t

/-- Parse the remainder of a JSON string literal (its opening quote already
consumed), with the `\x22` and backslash escapes; returns the decoded
characters and the rest of the input. -/
def parseStringChars : List Char → Option (List Char × List Char)
  | [] => none
  | c :: t =>
    if c = '"' then some ([], t)
    else if c = '\\' then
      match t with
      | [] => none
      | c2 :: t2 =>
        if c2 = '"' ∨ c2 = '\\' then
          (parseStringChars t2).map (fun r => (c2 :: r.1, r.2))
        else none
    else (parseStringChars t).map (fun r => (c :: r.1, r.2))

/-- Parse `string ("," string)* "]"` followed by end of input.  `fuel`
bounds the number of elements; any value at least the element count
works, and `jsonParseStringList` passes the input length. -/
def parseElemsAux : ℕ → List Char → Option (List String)
  | 0, _ => none
  | fuel + 1, cs =>
    match skipWs cs with
    | [] => none
    | c :: t =>
      if c = '"' then
        match parseStringChars t with
        | none => none
        | some (acc, rest) =>
          match skipWs rest with
          | [] => none
          | c2 :: t2 =>
            if c2 = ',' then (parseElemsAux fuel t2).map (fun l => String.mk acc :: l)
            else if c2 = ']' then if skipWs t2 = [] then some [String.mk acc] else none
            else none
      else none

/-- `JSON.parse` restricted to the only shape this code base feeds it: a
JSON array of string literals.  Anything else yields `none`, modelling
the thrown `SyntaxError`. -/
def jsonParseStringList (s : String) : Option (List String) :=
  match skipWs s.toList with
  | [] => none
  | c :: t =>
    if c = '[' then
      match skipWs t with
      | [] => parseElemsAux (t.length + 1) t
      | c2 :: t2 =>
        if c2 = ']' then if skipWs t2 = [] then some [] else none
        else parseElemsAux (t.length + 1) t
    else none

/-- The body (after `[`) of `JSON.stringify` applied to a non-empty list
of strings. -/
def encodeStringListTail : List String → List Char
  | [] => [']']
  | [s] => '"' :: (s.toList ++ ['"', ']'])
  | s :: rest => '"' :: (s.toList ++ '"' :: ',' :: encodeStringListTail rest)

/-- `JSON.stringify` of a list of strings holding no quote or backslash. -/
def simpleJsonEncode (l : List String) : String :=
  String.mk ('[' :: encodeStringListTail l)

end Polymarket

namespace AltService

open Polymarket

/-- One entry of a raw record's `outcome_prices` array (only the
`outcome` label is read by `normalizeMarketData`). -/
structure OutcomePrice where
  outcome : String
deriving Repr, DecidableEq

/-- A raw record's nested `event` object (only `title` is read). -/
structure EventObj where
  title : Option String := none
deriving Repr, DecidableEq

/-- A raw upstream record, restricted to exactly the fields
`normalizeMarketData` reads, each possibly absent. -/
structure RawRecord where
  condition_id : Option String := none
  id : Option String := none
  question_id : Option String := none
  question : Option String := none
  title : Option String := none
  description : Option String := none
  description_text : Option String := none
  end_date_iso : Option String := none
  endDate : Option String := none
  end_time : Option String := none
  outcomes : Option (List String) := none
  outcome_prices : Option (List OutcomePrice) := none
  event_id : Option String := none
  eventId : Option String := none
  event : Option EventObj := none
  eventTitle : Option String := none
  event_name : Option String := none
  category : Option String := none
  tags : Option (List String) := none
  market_type : Option String := none
  conditionId : Option String := none
deriving Repr, DecidableEq

/-- The canonical `Market` record produced by `normalizeMarketData`. -/
structure NormalizedMarket where
  id : String
  question : String
  description : String
  endDate : String
  outcomes : List String
  eventId : String
  eventTitle : String
  category : String
  conditionId : String
deriving Repr, DecidableEq

/-- `normalizeMarketData(market)` of the second service version: each
field is a JS `String(x || y || ... || default)` chain; `outcomes` falls
back to the `outcome_prices` labels and then to `[]`. -/
def normalizeMarketData (market : RawRecord) : NormalizedMarket :=
  { id := jsOrS market.condition_id (jsOrS market.id (jsOrS market.question_id "unknown"))
    question := jsOrS market.question (jsOrS market.title "Unknown market")
    description := jsOrS market.description (jsOrS market.description_text "")
    endDate := jsOrS market.end_date_iso (jsOrS market.endDate (jsOrS market.end_time ""))
    outcomes :=
      match market.outcomes with
      | some l => l
      | none =>
        match market.outcome_prices with
        | some ps => ps.map OutcomePrice.outcome
        | none => []
    eventId := jsOrS market.event_id (jsOrS market.eventId "")
    eventTitle := jsOrS (market.event.bind EventObj.title)
      (jsOrS market.eventTitle (jsOrS market.event_name ""))
    category := jsOrS market.category
      (jsOrS (market.tags.bind List.head?) (jsOrS market.market_type ""))
    conditionId := jsOrS market.condition_id (jsOrS market.conditionId (jsOrS market.id "")) }

/-- Feeding an already-normalized `Market` back into `normalizeMarketData`:
its camelCase fields are present, the upstream-only (snake_case etc.)
fields are absent. -/
def marketToRaw (m : NormalizedMarket) : RawRecord :=
  { id := some m.id
    question := some m.question
    description := some m.description
    endDate := some m.endDate
    outcomes := some m.outcomes
    eventId := some m.eventId
    eventTitle := some m.eventTitle
    category := some m.category
    conditionId := some m.conditionId }

end AltService

namespace McpService

open Polymarket

/-- The three shapes the upstream `outcomes` field can take. -/
inductive OutcomesField where
  | arr (l : List String)
  | str (s : String)
  | absent
deriving Repr, DecidableEq

/-- The default applied by `getMarketsFromGamma` when `outcomes` is falsy. -/
def defaultOutcomesJson : String := "[\"Yes\", \"No\"]"

/-- The `outcomes` computation of `getMarketsFromGamma`'s market mapping:
a native array is kept, otherwise
`JSON.parse(market.outcomes || defaultOutcomesJson)`; a parse failure
(`none`) models the thrown error, caught by the surrounding retry loop. -/
def gammaOutcomes (o : OutcomesField) : Option (List String) :=
  match o with
  | .arr l => some l
  | .str s => jsonParseStringList (if s = "" then defaultOutcomesJson else s)
  | .absent => jsonParseStringList defaultOutcomesJson

end McpService

namespace Polymarket

/-- The ordering used by `markets.sort((a, b) => key(b) - key(a))`: sort
by `key`, descending.  JS `Array.prototype.sort` is stable (ES2019), so
the sort itself is modelled as an insertion sort by this relation, which
is stable and extensionally equal to any stable sort by it. -/
def byKeyDesc {α : Type} (key : α → ℚ) (a b : α) : Prop := key b ≤ key a

instance {α : Type} (key : α → ℚ) : DecidableRel (byKeyDesc key) :=
  fun a b => inferInstanceAs (Decidable (key b ≤ key a))

instance {α : Type} (key : α → ℚ) : IsTotal α (byKeyDesc key) :=
  ⟨fun a b => le_total (key b) (key a)⟩

instance {α : Type} (key : α → ℚ) : IsTrans α (byKeyDesc key) :=
  ⟨fun _ _ _ h1 h2 => le_trans h2 h1⟩

/-- `l.sort((a, b) => key(b) - key(a))` as a stable descending sort. -/
def sortByKeyDesc {α : Type} (key : α → ℚ) (l : List α) : List α :=
  List.insertionSort (byKeyDesc key) l

end Polymarket

namespace McpService

open Polymarket

/-- The mcp service's `Market` interface. -/
structure Market where
  id : String
  conditionId : String
  question : String
  description : Option String := none
  endDate : Option String := none
  outcomes : List String := []
  eventId : Option String := none
  eventTitle : Option String := none
  category : Option String := none
  volume24hr : Option ℚ := none
  liquidity : Option ℚ := none
  relevanceScore : Option ℚ := none
deriving Repr, DecidableEq

/-- The fixed sports-term list of the mcp `calculateRelevanceScore`. -/
def sportsTerms : List String :=
  ["boxing", "ufc", "mma", "golf", "tennis", "manchester", "ryder", "championship",
   "olympics", "basketball", "football", "soccer"]

/-- The fixed politics-term list of the mcp `calculateRelevanceScore`
(the source lists "republican" twice). -/
def politicsTerms : List String :=
  ["election", "democratic", "republican", "congress", "senate", "house", "president",
   "mayor", "governor", "party", "vote", "campaign", "primary", "general", "midterm",
   "democrat", "republican", "nato", "policy", "government"]

/-- The category-match term of the mcp `calculateRelevanceScore`:
`if (category && market.category?.toLowerCase() === category.toLowerCase())`. -/
def categoryMatchBoost (category marketCategory : Option String) : ℚ :=
  match category, marketCategory with
  | some c, some mc => if c ≠ "" ∧ jsToLower mc = jsToLower c then 3/10 else 0
  | _, _ => 0

/-- `calculateRelevanceScore(market, query, category?)` of the mcp
service: +0.8 exact substring, +0.3 category match, up to +0.5 for the
matched fraction of query words, +0.3 sports boost, +0.8 politics boost,
then `Math.min(score, 1.0)`. -/
def calculateRelevanceScore (market : Market) (query : String)
    (category : Option String) : ℚ :=
  let queryLower := jsToLower query
  let questionLower := jsToLower market.question
  let s1 : ℚ := if jsIncludes questionLower queryLower then 4/5 else 0
  let s2 := s1 + categoryMatchBoost category market.category
  let queryWords := jsSplitSpace queryLower
  let questionWords := jsSplitSpace questionLower
  let matchingWords := queryWords.filter (fun word =>
    questionWords.any (fun qw => jsIncludes qw word))
  let s3 := s2 + ((matchingWords.length : ℚ) / (queryWords.length : ℚ)) * (1/2)
  let s4 := s3 + (if jsIncludes queryLower "sports" ∧
      sportsTerms.any (fun term => jsIncludes questionLower term) then 3/10 else 0)
  let s5 := s4 + (if jsIncludes queryLower "politics" ∧
      politicsTerms.any (fun term => jsIncludes questionLower term) then 4/5 else 0)
  min s5 1

/-- The mcp service's `EnhancedMarket`: a `Market` plus the scoring
fields (`relevanceScore` required, the rest optional). -/
structure EnhancedMarket where
  id : String
  conditionId : String
  question : String
  description : Option String := none
  endDate : Option String := none
  outcomes : List String := []
  eventId : Option String := none
  eventTitle : Option String := none
  category : Option String := none
  relevanceScore : ℚ
  volume24hr : Option ℚ := none
  liquidity : Option ℚ := none
  popularityScore : Option ℚ := none
deriving Repr, DecidableEq

/-- `m.relevanceScore` (required, no `|| 0` in the comparators). -/
def relKey (m : EnhancedMarket) : ℚ := m.relevanceScore

/-- `m.volume24hr || 0`. -/
def volKey (m : EnhancedMarket) : ℚ := m.volume24hr.getD 0

/-- `m.liquidity || 0`. -/
def liqKey (m : EnhancedMarket) : ℚ := m.liquidity.getD 0

/-- `m.popularityScore || 0`. -/
def popKey (m : EnhancedMarket) : ℚ := m.popularityScore.getD 0

/-- `sortEnhancedMarkets(markets, sortBy)` of the mcp service: a stable
sort by the selected key, descending; the default strategy sorts by
`relevanceScore`. -/
def sortEnhancedMarkets (markets : List EnhancedMarket) (sortBy : String) :
    List EnhancedMarket :=
  if sortBy = "popularity" then sortByKeyDesc popKey markets
  else if sortBy = "volume" then sortByKeyDesc volKey markets
  else if sortBy = "liquidity" then sortByKeyDesc liqKey markets
  else sortByKeyDesc relKey markets

/-- JS `Map.set` keyed by `id` on an association list in insertion order:
replace in place when the key exists, else append. -/
def mapSet (acc : List EnhancedMarket) (m : EnhancedMarket) : List EnhancedMarket :=
  if acc.any (fun x => x.id == m.id) then
    acc.map (fun x => if x.id == m.id then m else x)
  else acc ++ [m]

/-- `Array.from(new Map(allResults.map((r) => [r.id, r])).values())` in
`searchMarketsByInterests`: for duplicate ids the later entry overwrites
the earlier one. -/
def dedupeById (l : List EnhancedMarket) : List EnhancedMarket :=
  l.foldl mapSet []

/-- The dedupe / sort-by-relevance / `slice(0, limit)` tail of
`searchMarketsByInterests`. -/
def interestPostProcess (allResults : List EnhancedMarket) (limit : ℕ) :
    List EnhancedMarket :=
  (sortByKeyDesc relKey (dedupeById allResults)).take limit

end McpService

namespace AltService

open Polymarket

/-- The second service version's `EnhancedMarket`: its zod `Market` plus
four required numeric fields. -/
structure EnhancedMarket where
  id : String
  question : String
  description : Option String := none
  endDate : Option String := none
  outcomes : Option (List String) := none
  eventId : Option String := none
  eventTitle : Option String := none
  category : Option String := none
  conditionId : Option String := none
  relevanceScore : ℚ
  volume24hr : ℚ := 0
  liquidity : ℚ := 0
  popularityScore : ℚ := 0
deriving Repr, DecidableEq

/-- `sortEnhancedMarkets(markets, strategy)` of the second service
version: cases `"relevance"`, `"popularity"` (a 0.4/0.6 blend of
relevance and popularity), `"recent"` (by end date, `dateMs` standing
for JS `new Date(·).getTime()`), and a relevance default.  There is no
`"volume"` case. -/
def sortEnhancedMarkets (dateMs : String → ℚ) (markets : List EnhancedMarket)
    (strategy : String) : List EnhancedMarket :=
  if strategy = "relevance" then
    sortByKeyDesc (fun m => m.relevanceScore) markets
  else if strategy = "popularity" then
    sortByKeyDesc (fun m => m.relevanceScore * (2/5) + m.popularityScore * (3/5)) markets
  else if strategy = "recent" then
    sortByKeyDesc (fun m =>
      match m.endDate with
      | some d => if d = "" then 0 else dateMs d
      | none => 0) markets
  else sortByKeyDesc (fun m => m.relevanceScore) markets

/-- The zod `marketSchema` record of the second service version. -/
structure Market where
  id : String
  question : String
  description : Option String := none
  endDate : Option String := none
  outcomes : Option (List String) := none
  eventId : Option String := none
  eventTitle : Option String := none
  category : Option String := none
  conditionId : Option String := none
deriving Repr, DecidableEq

/-- The static `INTEREST_CATEGORY_MAP` table. -/
def INTEREST_CATEGORY_MAP : List (String × List String) :=
  [("politics", ["politics", "election", "government", "policy", "vote", "candidate",
      "president", "congress", "senate"]),
   ("sports", ["sports", "football", "basketball", "baseball", "soccer", "nfl", "nba",
      "mlb", "championship", "super bowl", "olympics"]),
   ("crypto", ["crypto", "bitcoin", "ethereum", "blockchain", "defi", "nft", "web3",
      "btc", "eth", "cryptocurrency"]),
   ("entertainment", ["entertainment", "movie", "film", "tv", "show", "netflix",
      "disney", "oscar", "emmy", "box office", "celebrity"]),
   ("economics", ["economics", "economy", "inflation", "fed", "interest rates",
      "stock market", "recession", "gdp", "unemployment"]),
   ("technology", ["technology", "tech", "ai", "artificial intelligence", "apple",
      "google", "microsoft", "tesla", "meta", "startup"]),
   ("health", ["health", "medical", "covid", "vaccine", "pandemic", "drug", "fda",
      "healthcare", "medicine"]),
   ("climate", ["climate", "weather", "environment", "global warming", "carbon",
      "renewable energy", "temperature"]),
   ("geopolitics", ["war", "peace", "international", "ukraine", "russia", "china",
      "nato", "un", "diplomacy"]),
   ("current_events", ["news", "current events", "trending", "viral", "social media",
      "twitter", "breaking news"])]

/-- The static `SEMANTIC_KEYWORDS` table. -/
def SEMANTIC_KEYWORDS : List (String × List String) :=
  [("election", ["election", "vote", "ballot", "primary", "candidate", "campaign",
      "polling", "electoral"]),
   ("economy", ["economy", "market", "financial", "economic", "fiscal", "monetary",
      "trade", "commerce"]),
   ("competition", ["win", "winner", "champion", "victory", "defeat", "compete",
      "tournament", "contest"]),
   ("price", ["price", "value", "cost", "expensive", "cheap", "bull", "bear", "pump",
      "dump"]),
   ("popularity", ["popular", "trending", "viral", "famous", "celebrity", "mainstream",
      "widespread"])]

/-- `calculateSemanticScore(text, query)`: 0.1 per matched keyword of each
concept the query mentions, capped at 1.0. -/
def calculateSemanticScore (text query : String) : ℚ :=
  min ((SEMANTIC_KEYWORDS.map (fun ck =>
    if jsIncludes query ck.1 then
      ((ck.2.filter (fun keyword => jsIncludes text keyword)).length : ℚ) * (1/10)
    else 0)).sum) 1

/-- `calculateInterestCategoryScore(market, query)`: 0.5 per interest
category matched by both the query and the market text, capped at 1.5. -/
def calculateInterestCategoryScore (market : Market) (query : String) : ℚ :=
  let text := String.intercalate " "
    (([some (jsToLower market.question), market.description.map jsToLower,
        market.eventTitle.map jsToLower, market.category.map jsToLower].filterMap id).filter
      (fun s => s ≠ ""))
  min ((INTEREST_CATEGORY_MAP.map (fun ik =>
    if ik.2.any (fun keyword => jsIncludes query keyword || jsIncludes keyword query) then
      (if ik.2.any (fun keyword => jsIncludes text keyword) then 1/2 else 0)
    else 0)).sum) (3/2)

/-- The category-filter term of the second version's scorer:
`if (category) { if (marketCategory.includes(c) || eventTitle.includes(c)) score += 0.3 }`. -/
def categoryFilterBoost (marketCategory eventTitle : String)
    (category : Option String) : ℚ :=
  match category with
  | some c =>
    if c ≠ "" ∧ (jsIncludes marketCategory (jsToLower c) ||
        jsIncludes eventTitle (jsToLower c)) then 3/10 else 0
  | none => 0

/-- The recency term of the second version's scorer:
`if (market.endDate) { if (new Date(market.endDate) > now) score += 0.2 }`,
with `dateAfterNow` standing for the JS date comparison. -/
def recencyBoost (dateAfterNow : String → Bool) (endDate : Option String) : ℚ :=
  match endDate with
  | some d => if d ≠ "" ∧ dateAfterNow d then 1/5 else 0
  | none => 0

/-- `calculateRelevanceScore(market, query, category?)` of the second
service version.  `dateAfterNow d` stands for the JS test
`new Date(d) > new Date()` in the recency boost.  The score is capped at
10, not 1. -/
def calculateRelevanceScore (dateAfterNow : String → Bool) (market : Market)
    (query : String) (category : Option String) : ℚ :=
  let queryLower := jsToLower query
  let words := (jsSplitSpace queryLower).filter (fun w => 2 < w.length)
  let title := jsToLower market.question
  let s1 : ℚ := (words.map (fun word =>
    if jsIncludes title word then
      (if 5 ≤ word.length then 1 else 7/10) +
        (if jsIncludes title queryLower then 1/2 else 0)
    else 0)).sum
  let description := jsToLower (market.description.getD "")
  let s2 := s1 + (words.map (fun word =>
    if jsIncludes description word then (if 5 ≤ word.length then 1/2 else 3/10)
    else 0)).sum
  let eventTitle := jsToLower (market.eventTitle.getD "")
  let marketCategory := jsToLower (market.category.getD "")
  let s3 := s2 + (words.map (fun word =>
    if jsIncludes eventTitle word || jsIncludes marketCategory word then 2/5
    else 0)).sum
  let s4 := s3 + calculateSemanticScore (title ++ " " ++ description) queryLower
  let s5 := s4 + calculateInterestCategoryScore market queryLower
  let s6 := s5 + categoryFilterBoost marketCategory eventTitle category
  let s7 := s6 + recencyBoost dateAfterNow market.endDate
  min s7 10

/-- The element type of `deduplicateMarkets`: a zod `Market` with the
attached `relevanceScore`. -/
structure ScoredMarket where
  id : String
  question : String
  description : Option String := none
  endDate : Option String := none
  outcomes : Option (List String) := none
  eventId : Option String := none
  eventTitle : Option String := none
  category : Option String := none
  conditionId : Option String := none
  relevanceScore : ℚ
deriving Repr, DecidableEq

/-- The per-market step of `deduplicateMarkets`: `seen.set(key, market)`
when the key is new or the incoming score is strictly higher. -/
def dedupeStep (seen : List ScoredMarket) (market : ScoredMarket) : List ScoredMarket :=
  match seen.find? (fun x => x.id == market.id) with
  | none => seen ++ [market]
  | some existing =>
    if existing.relevanceScore < market.relevanceScore then
      seen.map (fun x => if x.id == market.id then market else x)
    else seen

/-- `deduplicateMarkets(markets)` of the second service version: a `Map`
keyed by `id` where an entry is overwritten only by a strictly
higher-scoring duplicate. -/
def deduplicateMarkets (markets : List ScoredMarket) : List ScoredMarket :=
  markets.foldl dedupeStep []

end AltService

namespace Polymarket

theorem splitOnSpaceAux_ne_nil (cs acc : List Char) : splitOnSpaceAux cs acc ≠ [] := by
  induction cs generalizing acc with
  | nil => simp [splitOnSpaceAux]
  | cons c t ih =>
    simp only [splitOnSpaceAux]
    split
    · simp
    · exact ih _

theorem jsSplitSpace_ne_nil (s : String) : jsSplitSpace s ≠ [] :=
  splitOnSpaceAux_ne_nil _ _

/-- C1: the claim's formulas consult a summed allowance, but
`checkBuyOrderRequirements` fetches and uses only the USDC balance.  At
`balance = 100`, `allowance = 0`, `orderValue = 50` the code returns
`canPlace = true` and `maxOrderSize = 50`, while the claimed formulas
`canPlace = (balance ≥ orderValue ∧ allowance ≥ orderValue)` and
`maxOrderSize = min(balance, allowance, orderValue)` give `false` and
`0`. -/
theorem checkBuy_ignoresAllowance_counterexample :
    (McpService.checkBuyOrderRequirements 100 50).canPlace = true ∧
      (((100 : ℚ) ≥ 50 ∧ (0 : ℚ) ≥ 50) ↔ False) ∧
      (McpService.checkBuyOrderRequirements 100 50).maxOrderSize = some 50 ∧
      min (min (100 : ℚ) 0) 50 ≠ 50 := by
  refine ⟨by decide, ⟨fun h => by exact absurd h.2 (by norm_num), False.elim⟩, by decide, by decide⟩

/-- C1 (amended): `checkBuyOrderRequirements(orderValue)` uses only the
fetched collateral balance: `canPlace = balance ≥ orderValue`,
`maxOrderSize = min(balance, orderValue)`, no allowance in the result,
and a non-`none` error exactly on failure; in particular with
`balance = 100`: `orderValue = 50 ↦ (true, 50)` and
`orderValue = 150 ↦ (false, 100)` with a non-empty error string. -/
theorem checkBuy_balanceOnly_spec :
    (∀ b v : ℚ,
      (McpService.checkBuyOrderRequirements b v).canPlace = decide (b ≥ v) ∧
      (McpService.checkBuyOrderRequirements b v).maxOrderSize = some (min b v) ∧
      (McpService.checkBuyOrderRequirements b v).allowance = none ∧
      ((McpService.checkBuyOrderRequirements b v).canPlace = false →
        (McpService.checkBuyOrderRequirements b v).error ≠ none)) ∧
    (McpService.checkBuyOrderRequirements 100 50).canPlace = true ∧
    (McpService.checkBuyOrderRequirements 100 50).maxOrderSize = some 50 ∧
    (McpService.checkBuyOrderRequirements 100 150).canPlace = false ∧
    (McpService.checkBuyOrderRequirements 100 150).maxOrderSize = some 100 ∧
    ∃ s, (McpService.checkBuyOrderRequirements 100 150).error = some s ∧ s ≠ "" := by
  refine ⟨fun b v => ⟨rfl, rfl, rfl, fun h => ?_⟩, by decide, by decide, by decide, by decide,
    ⟨_, rfl, by decide⟩⟩
  simp only [McpService.checkBuyOrderRequirements] at h ⊢
  rw [h]
  simp

theorem checkBuy_balanceOnly_spec_witness :
    (McpService.checkBuyOrderRequirements 3 7).error ≠ none :=
  (checkBuy_balanceOnly_spec.1 3 7).2.2.2 (by decide)

/-- C3: when validation is not skipped and the relevant requirement check
returns `canPlace = false`, `createBuyOrder`/`createSellOrder` halt with
a failure `OrderResponse` (success `false`, the validation error, and
validation details) without ever reaching the exchange's
`createOrder`/`postOrder` calls. -/
theorem createOrder_haltsOnFailedValidation :
    (∀ (b : ℚ) (tokenId : String) (p s : ℚ),
      (McpService.checkBuyOrderRequirements b (p * s)).canPlace = false →
      ∃ resp, McpService.createBuyOrder b tokenId p s false = .halted resp ∧
        resp.success = false ∧ resp.error ≠ none ∧ resp.validationDetails ≠ none) ∧
    (∀ (tokenId : String) (p s : ℚ),
      (McpService.checkSellOrderRequirements tokenId s).canPlace = false →
      ∃ resp, McpService.createSellOrder tokenId p s false = .halted resp ∧
        resp.success = false ∧ resp.error ≠ none ∧ resp.validationDetails ≠ none) := by
  constructor
  · intro b tokenId p s h
    have heq : McpService.createBuyOrder b tokenId p s false = .halted
        { success := false
          error := some (jsOrS (McpService.checkBuyOrderRequirements b (p * s)).error
            "Order validation failed")
          validationDetails := some
            { orderValue := some (p * s)
              maxOrderSize := (McpService.checkBuyOrderRequirements b (p * s)).maxOrderSize
              balance := (McpService.checkBuyOrderRequirements b (p * s)).balance } } := by
      simp [McpService.createBuyOrder, h]
    exact ⟨_, heq, rfl, by simp, by simp⟩
  · intro tokenId p s h
    have heq : McpService.createSellOrder tokenId p s false = .halted
        { success := false
          error := some (jsOrS (McpService.checkSellOrderRequirements tokenId s).error
            "Sell order validation failed")
          validationDetails := some
            { requestedSize := some s
              maxOrderSize := (McpService.checkSellOrderRequirements tokenId s).maxOrderSize
              balance := (McpService.checkSellOrderRequirements tokenId s).balance } } := by
      simp [McpService.createSellOrder, h]
    exact ⟨_, heq, rfl, by simp, by simp⟩

theorem createOrder_haltsOnFailedValidation_witness :
    ∃ resp, McpService.createBuyOrder 10 "token1" (13/20) 20 false = .halted resp ∧
      resp.success = false ∧ resp.error ≠ none ∧ resp.validationDetails ≠ none :=
  createOrder_haltsOnFailedValidation.1 10 "token1" (13/20) 20 (by
    simp only [McpService.checkBuyOrderRequirements, decide_eq_false_iff_not, not_le]
    norm_num)

/-- C10: `checkSellOrderRequirements` uses the hard-coded placeholder
balance `0` (never fetched), so every requested `size > 0` yields
`canPlace = false` with `balance = 0` and `maxOrderSize = 0`, and every
sell order that does not skip validation halts before submission. -/
theorem checkSell_placeholderRefusesAll :
    ∀ (tokenId : String) (size : ℚ), 0 < size →
      (McpService.checkSellOrderRequirements tokenId size).canPlace = false ∧
      (McpService.checkSellOrderRequirements tokenId size).balance = some 0 ∧
      (McpService.checkSellOrderRequirements tokenId size).maxOrderSize = some 0 ∧
      ∀ p : ℚ, ∃ resp, McpService.createSellOrder tokenId p size false = .halted resp ∧
        resp.success = false ∧ resp.error ≠ none := by
  intro tokenId size hsize
  have hcan : (McpService.checkSellOrderRequirements tokenId size).canPlace = false := by
    simp only [McpService.checkSellOrderRequirements]
    simpa using not_le.mpr hsize
  refine ⟨hcan, rfl, ?_, fun p => ?_⟩
  · simp only [McpService.checkSellOrderRequirements]
    simp [min_eq_left hsize.le]
  · have heq : McpService.createSellOrder tokenId p size false = .halted
        { success := false
          error := some (jsOrS (McpService.checkSellOrderRequirements tokenId size).error
            "Sell order validation failed")
          validationDetails := some
            { requestedSize := some size
              maxOrderSize := (McpService.checkSellOrderRequirements tokenId size).maxOrderSize
              balance := (McpService.checkSellOrderRequirements tokenId size).balance } } := by
      simp [McpService.createSellOrder, hcan]
    exact ⟨_, heq, rfl, by simp⟩

theorem checkSell_placeholderRefusesAll_witness :
    (McpService.checkSellOrderRequirements "token1" 2).canPlace = false ∧
      (McpService.checkSellOrderRequirements "token1" 2).balance = some 0 ∧
      (McpService.checkSellOrderRequirements "token1" 2).maxOrderSize = some 0 ∧
      ∀ p : ℚ, ∃ resp, McpService.createSellOrder "token1" p 2 false = .halted resp ∧
        resp.success = false ∧ resp.error ≠ none :=
  checkSell_placeholderRefusesAll "token1" 2 (by decide)

/-- C2: a trading request whose `conditionId` is absent or does not start
with `"0x"` fails `validateTradingRequest` with an error and is rejected
by `executeAction` before any order handler runs; in particular it never
routes to the buy- or sell-order handlers. -/
theorem invalidConditionId_neverReachesOrders :
    ∀ request : TradingAgent.TradingRequest,
      (request.conditionId = "" ∨ jsStartsWith request.conditionId "0x" = false) →
      (TradingAgent.validateTradingRequest request).valid = false ∧
      (TradingAgent.validateTradingRequest request).error ≠ none ∧
      TradingAgent.executeAction request =
        .rejected (TradingAgent.validateTradingRequest request).error
          (TradingAgent.validateTradingRequest request).suggestedActions ∧
      TradingAgent.executeAction request ≠ .buyOrder ∧
      TradingAgent.executeAction request ≠ .sellOrder := by
  intro request h
  have hvalid : (TradingAgent.validateTradingRequest request).valid = false := by
    simp only [TradingAgent.validateTradingRequest]
    rcases h with h | h
    · simp [h]
    · by_cases hc : request.conditionId = "" <;> simp [hc, h]
  have herr : (TradingAgent.validateTradingRequest request).error ≠ none := by
    simp only [TradingAgent.validateTradingRequest]
    rcases h with h | h
    · simp [h]
    · by_cases hc : request.conditionId = "" <;> simp [hc, h]
  have hexec : TradingAgent.executeAction request =
      .rejected (TradingAgent.validateTradingRequest request).error
        (TradingAgent.validateTradingRequest request).suggestedActions := by
    simp only [TradingAgent.executeAction, hvalid]
    simp
  exact ⟨hvalid, herr, hexec, by rw [hexec]; simp, by rw [hexec]; simp⟩

theorem invalidConditionId_neverReachesOrders_witness :
    TradingAgent.executeAction
        { conditionId := "578103", marketQuestion := "q", action := "buy Yes 10 shares"
          availableOutcomes := ["Yes", "No"] } ≠ .buyOrder :=
  (invalidConditionId_neverReachesOrders
    { conditionId := "578103", marketQuestion := "q", action := "buy Yes 10 shares"
      availableOutcomes := ["Yes", "No"] } (Or.inr (by decide))).2.2.2.1

theorem jsOrS_some_empty (s : String) : jsOrS (some s) "" = s := by
  by_cases h : s = "" <;> simp [jsOrS, h]

theorem jsOrS_ne_empty (o : Option String) (d : String) (h : d ≠ "") : jsOrS o d ≠ "" := by
  cases o with
  | none => exact h
  | some s =>
    by_cases hs : s = ""
    · simpa [jsOrS, hs] using h
    · simpa [jsOrS, hs] using hs

theorem toList_mk (cs : List Char) : (String.mk cs).toList = cs := rfl

theorem stringMk_cons_ne_empty (c : Char) (cs : List Char) : String.mk (c :: cs) ≠ "" :=
  fun h => by simpa using congrArg String.data h

theorem skipWs_cons_of_not_ws (c : Char) (t : List Char)
    (h : ¬(c = ' ' ∨ c = '\t' ∨ c = '\n' ∨ c = '\r')) : skipWs (c :: t) = c :: t := by
  simp only [skipWs]
  rw [if_neg h]

theorem parseStringChars_append (s rest : List Char)
    (h : ∀ c ∈ s, ¬(c = '"' ∨ c = '\\')) :
    parseStringChars (s ++ '"' :: rest) = some (s, rest) := by
  induction s with
  | nil =>
    rw [List.nil_append]
    unfold parseStringChars
    simp
  | cons c t ih =>
    have hc := h c (List.mem_cons_self ..)
    push_neg at hc
    rw [List.cons_append, parseStringChars.eq_def]
    simp [hc.1, hc.2, ih (fun x hx => h x (List.mem_cons_of_mem _ hx))]

/-- One unfolding step of `parseElemsAux` on input starting with a quote. -/
theorem parseElemsAux_step (f : ℕ) (X : List Char) :
    parseElemsAux (f + 1) ('"' :: X) =
      match parseStringChars X with
      | none => none
      | some (acc, rest) =>
        match skipWs rest with
        | [] => none
        | c2 :: t2 =>
          if c2 = ',' then (parseElemsAux f t2).map (fun l => String.mk acc :: l)
          else if c2 = ']' then if skipWs t2 = [] then some [String.mk acc] else none
          else none := rfl

theorem mk_toList (s : String) : String.mk s.toList = s := rfl

theorem mk_data (s : String) : String.mk s.data = s := rfl

theorem parseElemsAux_encode :
    ∀ (l : List String) (fuel : ℕ), l ≠ [] → l.length ≤ fuel →
      (∀ s ∈ l, ∀ c ∈ s.toList, ¬(c = '"' ∨ c = '\\')) →
      parseElemsAux fuel (encodeStringListTail l) = some l := by
  intro l
  induction l with
  | nil => exact fun fuel h => absurd rfl h
  | cons s rest ih =>
    intro fuel _ hlen hgood
    have h1 : 1 ≤ fuel := le_trans (by simp) hlen
    obtain ⟨f, rfl⟩ : ∃ f, fuel = f + 1 := ⟨fuel - 1, by omega⟩
    have hs := hgood s (List.mem_cons_self ..)
    cases rest with
    | nil =>
      rw [show encodeStringListTail [s] = '"' :: (s.toList ++ '"' :: [']']) from rfl]
      rw [parseElemsAux_step, parseStringChars_append _ _ hs]
      simp [show skipWs [']'] = [']'] from rfl, show skipWs ([] : List Char) = [] from rfl,
        mk_data]
    | cons s2 rest2 =>
      rw [show encodeStringListTail (s :: s2 :: rest2) =
        '"' :: (s.toList ++ '"' :: ',' :: encodeStringListTail (s2 :: rest2)) from rfl]
      rw [parseElemsAux_step, parseStringChars_append _ _ hs]
      show (parseElemsAux f (encodeStringListTail (s2 :: rest2))).map
        (fun l => String.mk s.toList :: l) = some (s :: s2 :: rest2)
      rw [ih f (by simp) (by simpa using hlen)
        (fun x hx => hgood x (List.mem_cons_of_mem _ hx))]
      simp [mk_data]

theorem length_le_length_encode :
    ∀ l : List String, l.length ≤ (encodeStringListTail l).length := by
  intro l
  induction l with
  | nil => simp [encodeStringListTail]
  | cons s rest ih =>
    cases rest with
    | nil => simp [encodeStringListTail]
    | cons s2 rest2 =>
      rw [show encodeStringListTail (s :: s2 :: rest2) =
        '"' :: (s.toList ++ '"' :: ',' :: encodeStringListTail (s2 :: rest2)) from rfl]
      simp only [List.length_cons, List.length_append] at ih ⊢
      omega

theorem jsonParse_simpleJsonEncode (l : List String)
    (hgood : ∀ s ∈ l, ∀ c ∈ s.toList, ¬(c = '"' ∨ c = '\\')) :
    jsonParseStringList (simpleJsonEncode l) = some l := by
  cases l with
  | nil => decide
  | cons s rest =>
    obtain ⟨t0, ht⟩ : ∃ t0, encodeStringListTail (s :: rest) = '"' :: t0 := by
      cases rest with
      | nil => exact ⟨_, rfl⟩
      | cons a b => exact ⟨_, rfl⟩
    rw [show simpleJsonEncode (s :: rest) =
      String.mk ('[' :: encodeStringListTail (s :: rest)) from rfl, ht]
    show parseElemsAux (('"' :: t0).length + 1) ('"' :: t0) = some (s :: rest)
    rw [← ht]
    exact parseElemsAux_encode (s :: rest) _ (by simp)
      (Nat.le_succ_of_le (length_le_length_encode _)) hgood

/-- C5 counterexample: `normalizeMarketData` on a raw record with no
`outcomes` (and no `outcome_prices`) yields `[]`, not `["Yes", "No"]`. -/
theorem normalize_missingOutcomes_counterexample :
    (AltService.normalizeMarketData { question := some "Will it rain?" }).outcomes = [] ∧
      ([] : List String) ≠ ["Yes", "No"] := by decide

/-- C5 (amended): the Gamma fetch mapping defaults an absent (or empty)
`outcomes` field to `["Yes", "No"]` via `JSON.parse` of the default
literal, keeps a native array, and parses a JSON-encoded string into the
encoded list; `normalizeMarketData` of the second service version instead
defaults an absent `outcomes` to the `outcome_prices` labels and then to
`[]`. -/
theorem outcomes_default_spec :
    McpService.gammaOutcomes .absent = some ["Yes", "No"] ∧
    (∀ l : List String, (∀ s ∈ l, ∀ c ∈ s.toList, ¬(c = '"' ∨ c = '\\')) →
      McpService.gammaOutcomes (.arr l) = some l ∧
      McpService.gammaOutcomes (.str (simpleJsonEncode l)) = some l) ∧
    (∀ r : AltService.RawRecord, r.outcomes = none → r.outcome_prices = none →
      (AltService.normalizeMarketData r).outcomes = []) := by
  refine ⟨by decide, fun l hgood => ⟨rfl, ?_⟩, fun r h1 h2 => ?_⟩
  · simp only [McpService.gammaOutcomes, simpleJsonEncode]
    rw [if_neg (stringMk_cons_ne_empty _ _)]
    exact jsonParse_simpleJsonEncode l hgood
  · simp [AltService.normalizeMarketData, h1, h2]

theorem outcomes_default_spec_witness :
    McpService.gammaOutcomes (.str (simpleJsonEncode ["A", "B"])) = some ["A", "B"] ∧
      (AltService.normalizeMarketData { id := some "7" }).outcomes = [] :=
  ⟨(outcomes_default_spec.2.1 ["A", "B"] (by decide)).2,
   outcomes_default_spec.2.2 { id := some "7" } rfl rfl⟩

theorem normalize_id_ne_empty (r : AltService.RawRecord) :
    (AltService.normalizeMarketData r).id ≠ "" :=
  jsOrS_ne_empty _ _ (jsOrS_ne_empty _ _ (jsOrS_ne_empty _ _ (by decide)))

theorem normalize_question_ne_empty (r : AltService.RawRecord) :
    (AltService.normalizeMarketData r).question ≠ "" :=
  jsOrS_ne_empty _ _ (jsOrS_ne_empty _ _ (by decide))

theorem jsOrS_none (d : String) : jsOrS none d = d := rfl

theorem jsOrS_some (s d : String) : jsOrS (some s) d = if s = "" then d else s := rfl

theorem ite_empty_self (s : String) : (if s = "" then "" else s) = s := by
  by_cases h : s = "" <;> simp [h]

theorem renormalize_fields (m : AltService.NormalizedMarket)
    (hid : m.id ≠ "") (hq : m.question ≠ "") :
    AltService.normalizeMarketData (AltService.marketToRaw m) =
      { m with conditionId := if m.conditionId = "" then m.id else m.conditionId } := by
  simp [AltService.normalizeMarketData, AltService.marketToRaw, jsOrS_none, jsOrS_some,
    ite_empty_self, hid, hq]

/-- C9 counterexample: a raw record holding only a `question_id` and a
`question` normalizes to `conditionId = ""`, and re-normalizing the
result flips `conditionId` to the computed `id`, so
`normalize ∘ normalize ≠ normalize` on it. -/
theorem normalize_not_idempotent_counterexample :
    AltService.normalizeMarketData (AltService.marketToRaw (AltService.normalizeMarketData
        { question_id := some "q1", question := some "Will it rain?" })) ≠
      AltService.normalizeMarketData
        { question_id := some "q1", question := some "Will it rain?" } := by decide

/-- C9 (amended): `normalizeMarketData` is idempotent on every field
except `conditionId`: whenever the first pass produces a non-empty
`conditionId`, re-normalizing is a no-op; when it produces `""` (no
`condition_id`/`conditionId`/`id` on the raw record), the second pass
changes only `conditionId`, setting it to the computed `id`. -/
theorem normalize_idempotent_except_conditionId :
    (∀ r : AltService.RawRecord,
      (AltService.normalizeMarketData r).conditionId ≠ "" →
      AltService.normalizeMarketData (AltService.marketToRaw (AltService.normalizeMarketData r)) =
        AltService.normalizeMarketData r) ∧
    (∀ r : AltService.RawRecord,
      (AltService.normalizeMarketData (AltService.marketToRaw
          (AltService.normalizeMarketData r))).id = (AltService.normalizeMarketData r).id ∧
      (AltService.normalizeMarketData (AltService.marketToRaw
          (AltService.normalizeMarketData r))).question = (AltService.normalizeMarketData r).question ∧
      (AltService.normalizeMarketData (AltService.marketToRaw
          (AltService.normalizeMarketData r))).description = (AltService.normalizeMarketData r).description ∧
      (AltService.normalizeMarketData (AltService.marketToRaw
          (AltService.normalizeMarketData r))).endDate = (AltService.normalizeMarketData r).endDate ∧
      (AltService.normalizeMarketData (AltService.marketToRaw
          (AltService.normalizeMarketData r))).outcomes = (AltService.normalizeMarketData r).outcomes ∧
      (AltService.normalizeMarketData (AltService.marketToRaw
          (AltService.normalizeMarketData r))).eventId = (AltService.normalizeMarketData r).eventId ∧
      (AltService.normalizeMarketData (AltService.marketToRaw
          (AltService.normalizeMarketData r))).eventTitle = (AltService.normalizeMarketData r).eventTitle ∧
      (AltService.normalizeMarketData (AltService.marketToRaw
          (AltService.normalizeMarketData r))).category = (AltService.normalizeMarketData r).category) ∧
    (∀ r : AltService.RawRecord,
      (AltService.normalizeMarketData r).conditionId = "" →
      (AltService.normalizeMarketData (AltService.marketToRaw
          (AltService.normalizeMarketData r))).conditionId = (AltService.normalizeMarketData r).id) := by
  have key : ∀ r : AltService.RawRecord,
      AltService.normalizeMarketData (AltService.marketToRaw (AltService.normalizeMarketData r)) =
        { AltService.normalizeMarketData r with
          conditionId := if (AltService.normalizeMarketData r).conditionId = ""
            then (AltService.normalizeMarketData r).id
            else (AltService.normalizeMarketData r).conditionId } :=
    fun r => renormalize_fields _ (normalize_id_ne_empty r) (normalize_question_ne_empty r)
  refine ⟨fun r h => ?_, fun r => ?_, fun r h => ?_⟩
  · rw [key r, if_neg h]
  · rw [key r]
    exact ⟨rfl, rfl, rfl, rfl, rfl, rfl, rfl, rfl⟩
  · rw [key r, if_pos h]

theorem normalize_idempotent_except_conditionId_witness :
    AltService.normalizeMarketData (AltService.marketToRaw (AltService.normalizeMarketData
        { condition_id := some "0xabc", question := some "Q" })) =
      AltService.normalizeMarketData { condition_id := some "0xabc", question := some "Q" } ∧
    (AltService.normalizeMarketData (AltService.marketToRaw (AltService.normalizeMarketData
        { question_id := some "q1", question := some "Will it rain?" }))).conditionId =
      (AltService.normalizeMarketData
        { question_id := some "q1", question := some "Will it rain?" }).id :=
  ⟨normalize_idempotent_except_conditionId.1 _ (by decide),
   normalize_idempotent_except_conditionId.2.2 _ (by decide)⟩

theorem filter_orderedInsert_keyEq {α : Type} (key : α → ℚ) (k : ℚ) (a : α) (l : List α) :
    (List.orderedInsert (byKeyDesc key) a l).filter (fun x => decide (key x = k)) =
      if key a = k then a :: l.filter (fun x => decide (key x = k))
      else l.filter (fun x => decide (key x = k)) := by
  induction l with
  | nil =>
    by_cases ha : key a = k <;> simp [List.orderedInsert, ha]
  | cons b t ih =>
    simp only [List.orderedInsert]
    by_cases h : byKeyDesc key a b
    · rw [if_pos h]
      by_cases ha : key a = k <;> simp [List.filter_cons, ha]
    · rw [if_neg h]
      have hbk : ¬ key b ≤ key a := h
      by_cases ha : key a = k
      · have hb : ¬ (key b = k) := fun hbq => hbk (le_of_eq (by rw [hbq, ha]))
        simp [List.filter_cons, ih, ha, hb]
      · by_cases hb : key b = k <;> simp [List.filter_cons, ih, ha, hb]

theorem filter_insertionSort_keyEq {α : Type} (key : α → ℚ) (k : ℚ) (l : List α) :
    ((List.insertionSort (byKeyDesc key) l).filter (fun x => decide (key x = k))) =
      l.filter (fun x => decide (key x = k)) := by
  induction l with
  | nil => rfl
  | cons a t ih =>
    simp only [List.insertionSort]
    rw [filter_orderedInsert_keyEq]
    by_cases ha : key a = k <;> simp [List.filter_cons, ha, ih]

theorem filter_sortByKeyDesc_keyEq {α : Type} (key : α → ℚ) (k : ℚ) (l : List α) :
    (sortByKeyDesc key l).filter (fun x => decide (key x = k)) =
      l.filter (fun x => decide (key x = k)) :=
  filter_insertionSort_keyEq key k l

theorem sortByKeyDesc_sorted {α : Type} (key : α → ℚ) (l : List α) :
    (sortByKeyDesc key l).Pairwise (fun a b => key b ≤ key a) :=
  List.sorted_insertionSort (byKeyDesc key) l

theorem sortByKeyDesc_idem {α : Type} (key : α → ℚ) (l : List α) :
    sortByKeyDesc key (sortByKeyDesc key l) = sortByKeyDesc key l :=
  List.Sorted.insertionSort_eq (List.sorted_insertionSort (byKeyDesc key) l)

/-- C7 counterexample: the second service version's `sortEnhancedMarkets`
has no "volume" case, so the "volume" strategy falls through to the
relevance sort; a high-relevance zero-volume market stays first and the
output volumes are strictly increasing. -/
theorem sortEnhanced_volume_counterexample :
    AltService.sortEnhancedMarkets (fun _ => 0)
        [{ id := "a", question := "qa", relevanceScore := 2, volume24hr := 0 },
         { id := "b", question := "qb", relevanceScore := 1, volume24hr := 100 }] "volume" =
      [{ id := "a", question := "qa", relevanceScore := 2, volume24hr := 0 },
       { id := "b", question := "qb", relevanceScore := 1, volume24hr := 100 }] ∧
    ((0 : ℚ) < 100) := by
  constructor
  · decide
  · norm_num

/-- C7 (amended): the mcp service's `sortEnhancedMarkets` with the
"volume" strategy is a stable descending sort by `volume24hr || 0`: the
output keys are non-increasing, elements with equal keys keep their
original fetch order (the key-equal sublists are unchanged), and
re-ranking a ranked list is a no-op; ranking is a pure function, hence
deterministic.  The second service version's `sortEnhancedMarkets`
instead has no "volume" case and sorts by `relevanceScore`. -/
theorem sortEnhancedMarkets_volume_spec :
    (∀ l : List McpService.EnhancedMarket,
      (McpService.sortEnhancedMarkets l "volume").Pairwise
        (fun a b => McpService.volKey b ≤ McpService.volKey a)) ∧
    (∀ (l : List McpService.EnhancedMarket) (k : ℚ),
      (McpService.sortEnhancedMarkets l "volume").filter
          (fun m => decide (McpService.volKey m = k)) =
        l.filter (fun m => decide (McpService.volKey m = k))) ∧
    (∀ l : List McpService.EnhancedMarket,
      McpService.sortEnhancedMarkets (McpService.sortEnhancedMarkets l "volume") "volume" =
        McpService.sortEnhancedMarkets l "volume") ∧
    (∀ (dateMs : String → ℚ) (l : List AltService.EnhancedMarket),
      AltService.sortEnhancedMarkets dateMs l "volume" =
        sortByKeyDesc (fun m => m.relevanceScore) l) := by
  have hvol : ∀ l : List McpService.EnhancedMarket,
      McpService.sortEnhancedMarkets l "volume" = sortByKeyDesc McpService.volKey l := by
    intro l
    simp [McpService.sortEnhancedMarkets]
  refine ⟨fun l => ?_, fun l k => ?_, fun l => ?_, fun dateMs l => ?_⟩
  · rw [hvol]
    exact sortByKeyDesc_sorted _ l
  · rw [hvol]
    exact filter_sortByKeyDesc_keyEq _ k l
  · simp only [hvol]
    exact sortByKeyDesc_idem _ l
  · simp [AltService.sortEnhancedMarkets]

theorem ids_mapSet_of_present (acc : List McpService.EnhancedMarket)
    (m : McpService.EnhancedMarket) (h : acc.any (fun x => x.id == m.id)) :
    (McpService.mapSet acc m).map (fun x => x.id) = acc.map (fun x => x.id) := by
  simp only [McpService.mapSet, if_pos h, List.map_map]
  refine List.map_congr_left (fun x _ => ?_)
  simp only [Function.comp_apply]
  by_cases hx : x.id = m.id <;> simp [hx]

theorem nodup_ids_foldl_mapSet :
    ∀ (l acc : List McpService.EnhancedMarket),
      ((acc.map (fun x => x.id)).Nodup) →
      (((l.foldl McpService.mapSet acc).map (fun x => x.id)).Nodup) := by
  intro l
  induction l with
  | nil => exact fun acc h => h
  | cons m t ih =>
    intro acc hacc
    refine ih (McpService.mapSet acc m) ?_
    by_cases h : acc.any (fun x => x.id == m.id)
    · rw [ids_mapSet_of_present acc m h]
      exact hacc
    · simp only [McpService.mapSet, if_neg h]
      rw [List.map_append]
      simp only [List.map_cons, List.map_nil]
      rw [List.nodup_append]
      refine ⟨hacc, List.nodup_singleton _, ?_⟩
      intro a ha hb
      simp only [List.mem_singleton] at hb
      subst hb
      obtain ⟨x, hx, hxid⟩ := List.mem_map.mp ha
      exact h (List.any_eq_true.mpr ⟨x, hx, by simp [hxid]⟩)

theorem nodup_ids_dedupeById (l : List McpService.EnhancedMarket) :
    ((McpService.dedupeById l).map (fun x => x.id)).Nodup :=
  nodup_ids_foldl_mapSet l [] (by simp)

theorem find?_map_replace {α : Type} (idOf : α → String) (m : α) :
    ∀ (acc : List α) (k : String),
      (acc.map (fun x => if idOf x == idOf m then m else x)).find? (fun x => idOf x == k) =
        if k = idOf m then
          (if acc.any (fun x => idOf x == idOf m) then some m
           else acc.find? (fun x => idOf x == k))
        else acc.find? (fun x => idOf x == k) := by
  intro acc
  induction acc with
  | nil =>
    intro k
    by_cases hk : k = idOf m <;> simp [hk]
  | cons a t ih =>
    intro k
    rw [List.map_cons]
    by_cases ha : idOf a = idOf m
    · rw [show (if idOf a == idOf m then m else a) = m from if_pos (by simp [ha])]
      by_cases hk : k = idOf m
      · subst hk
        rw [List.find?_cons_of_pos _ (by simp), if_pos rfl,
          if_pos (by simp [List.any_cons, ha])]
      · rw [List.find?_cons_of_neg _
            (by simp only [beq_iff_eq]; exact fun hc => hk hc.symm),
          ih k, if_neg hk, if_neg hk,
          List.find?_cons_of_neg _
            (by simp only [beq_iff_eq]; exact fun hc => hk (by rw [← hc, ha]))]
    · rw [show (if idOf a == idOf m then m else a) = a from if_neg (by simp [ha])]
      by_cases hak : idOf a = k
      · have hk : ¬ k = idOf m := fun hc => ha (by rw [hak, hc])
        rw [List.find?_cons_of_pos _ (by simp [hak]), if_neg hk,
          List.find?_cons_of_pos _ (by simp [hak])]
      · rw [List.find?_cons_of_neg _ (by simp [hak]), ih k]
        by_cases hk : k = idOf m
        · subst hk
          rw [if_pos rfl, if_pos rfl,
            show ((a :: t).any fun x => idOf x == idOf m) =
                (t.any fun x => idOf x == idOf m) from by
              simp [List.any_cons, ha]]
          by_cases hany : t.any (fun x => idOf x == idOf m)
          · rw [if_pos hany, if_pos hany]
          · rw [if_neg hany, if_neg hany, List.find?_cons_of_neg _ (by simp [hak])]
        · rw [if_neg hk, if_neg hk, List.find?_cons_of_neg _ (by simp [hak])]

theorem find?_mapSet_self (acc : List McpService.EnhancedMarket)
    (m : McpService.EnhancedMarket) :
    (McpService.mapSet acc m).find? (fun x => x.id == m.id) = some m := by
  by_cases h : acc.any (fun x => x.id == m.id)
  · simp only [McpService.mapSet, if_pos h]
    rw [find?_map_replace McpService.EnhancedMarket.id m acc m.id, if_pos rfl, if_pos h]
  · simp only [McpService.mapSet, if_neg h]
    rw [List.find?_append]
    have hnone : acc.find? (fun x => x.id == m.id) = none := by
      rw [List.find?_eq_none]
      intro x hx hxid
      exact h (List.any_eq_true.mpr ⟨x, hx, hxid⟩)
    simp [hnone]

theorem find?_mapSet_other (acc : List McpService.EnhancedMarket)
    (m : McpService.EnhancedMarket) (k : String) (hk : m.id ≠ k) :
    (McpService.mapSet acc m).find? (fun x => x.id == k) =
      acc.find? (fun x => x.id == k) := by
  by_cases h : acc.any (fun x => x.id == m.id)
  · simp only [McpService.mapSet, if_pos h]
    rw [find?_map_replace McpService.EnhancedMarket.id m acc k,
      if_neg (fun hc : k = m.id => hk hc.symm)]
  · simp only [McpService.mapSet, if_neg h]
    rw [List.find?_append]
    have hmk : (m.id == k) = false := beq_eq_false_iff_ne.mpr hk
    cases hacc : acc.find? (fun x => x.id == k) <;> simp [hmk]

theorem dedupeById_append_one (l : List McpService.EnhancedMarket)
    (m : McpService.EnhancedMarket) :
    McpService.dedupeById (l ++ [m]) = McpService.mapSet (McpService.dedupeById l) m := by
  simp [McpService.dedupeById, List.foldl_append]

theorem find?_dedupeById_eq_lastOcc (l : List McpService.EnhancedMarket) (k : String) :
    (McpService.dedupeById l).find? (fun x => x.id == k) =
      l.reverse.find? (fun x => x.id == k) := by
  induction l using List.reverseRecOn with
  | nil => rfl
  | append_singleton t m ih =>
    rw [dedupeById_append_one, List.reverse_append]
    by_cases hk : m.id = k
    · subst hk
      rw [find?_mapSet_self]
      simp [List.find?_cons]
    · rw [find?_mapSet_other _ _ _ hk]
      have hmk : (m.id == k) = false := beq_eq_false_iff_ne.mpr hk
      simp [List.find?_cons, hmk, ih]

theorem dedupeStep_find?_mono (acc : List AltService.ScoredMarket)
    (m : AltService.ScoredMarket) (k : String) (x : AltService.ScoredMarket)
    (h : acc.find? (fun y => y.id == k) = some x) :
    ∃ y, (AltService.dedupeStep acc m).find? (fun y => y.id == k) = some y ∧
      x.relevanceScore ≤ y.relevanceScore := by
  cases hf : acc.find? (fun z => z.id == m.id) with
  | none =>
    have hstep : AltService.dedupeStep acc m = acc ++ [m] := by
      unfold AltService.dedupeStep
      rw [hf]
    rw [hstep, List.find?_append, h]
    exact ⟨x, rfl, le_refl _⟩
  | some existing =>
    by_cases hlt : existing.relevanceScore < m.relevanceScore
    · have hstep : AltService.dedupeStep acc m =
          acc.map (fun x => if x.id == m.id then m else x) := by
        unfold AltService.dedupeStep
        rw [hf]
        exact if_pos hlt
      rw [hstep]
      by_cases hk : k = m.id
      · subst hk
        have hx : x = existing := Option.some.inj (h.symm.trans hf)
        refine ⟨m, ?_, by rw [hx]; exact le_of_lt hlt⟩
        rw [find?_map_replace AltService.ScoredMarket.id m acc m.id, if_pos rfl,
          if_pos (List.any_eq_true.mpr
            ⟨existing, List.mem_of_find?_eq_some hf, List.find?_some hf⟩)]
      · refine ⟨x, ?_, le_refl _⟩
        rw [find?_map_replace AltService.ScoredMarket.id m acc k, if_neg hk]
        exact h
    · have hstep : AltService.dedupeStep acc m = acc := by
        unfold AltService.dedupeStep
        rw [hf]
        exact if_neg hlt
      rw [hstep]
      exact ⟨x, h, le_refl _⟩

theorem dedupHighest_mono :
    ∀ (l acc : List AltService.ScoredMarket) (k : String) (x : AltService.ScoredMarket),
      acc.find? (fun y => y.id == k) = some x →
      ∃ y, (l.foldl AltService.dedupeStep acc).find? (fun y => y.id == k) = some y ∧
        x.relevanceScore ≤ y.relevanceScore := by
  intro l
  induction l with
  | nil => exact fun acc k x h => ⟨x, h, le_refl _⟩
  | cons m t ih =>
    intro acc k x h
    obtain ⟨y, hy, hxy⟩ := dedupeStep_find?_mono acc m k x h
    obtain ⟨z, hz, hyz⟩ := ih (AltService.dedupeStep acc m) k y hy
    exact ⟨z, hz, le_trans hxy hyz⟩

theorem dedupHighest_ge :
    ∀ (l acc : List AltService.ScoredMarket) (m : AltService.ScoredMarket), m ∈ l →
      ∃ y, (l.foldl AltService.dedupeStep acc).find? (fun x => x.id == m.id) = some y ∧
        m.relevanceScore ≤ y.relevanceScore := by
  intro l
  induction l with
  | nil => exact fun acc m h => absurd h (List.not_mem_nil m)
  | cons m0 t ih =>
    intro acc m hm
    rcases List.mem_cons.mp hm with rfl | hmt
    · have hentry : ∃ e, (AltService.dedupeStep acc m).find? (fun x => x.id == m.id) = some e ∧
          m.relevanceScore ≤ e.relevanceScore := by
        cases hf : acc.find? (fun z => z.id == m.id) with
        | none =>
          have hstep : AltService.dedupeStep acc m = acc ++ [m] := by
            unfold AltService.dedupeStep
            rw [hf]
          refine ⟨m, ?_, le_refl _⟩
          rw [hstep, List.find?_append, hf]
          simp
        | some existing =>
          by_cases hlt : existing.relevanceScore < m.relevanceScore
          · have hstep : AltService.dedupeStep acc m =
                acc.map (fun x => if x.id == m.id then m else x) := by
              unfold AltService.dedupeStep
              rw [hf]
              exact if_pos hlt
            refine ⟨m, ?_, le_refl _⟩
            rw [hstep, find?_map_replace AltService.ScoredMarket.id m acc m.id, if_pos rfl,
              if_pos (List.any_eq_true.mpr
                ⟨existing, List.mem_of_find?_eq_some hf, List.find?_some hf⟩)]
          · have hstep : AltService.dedupeStep acc m = acc := by
              unfold AltService.dedupeStep
              rw [hf]
              exact if_neg hlt
            exact ⟨existing, by rw [hstep]; exact hf, not_lt.mp hlt⟩
      obtain ⟨e, he, hme⟩ := hentry
      obtain ⟨y, hy, hey⟩ := dedupHighest_mono t (AltService.dedupeStep acc m) m.id e he
      exact ⟨y, hy, le_trans hme hey⟩
    · exact ih (AltService.dedupeStep acc m0) m hmt

/-- C6 counterexample: the interest search's dedupe (`new Map`) keeps the
last-encountered entry per id, not the highest-scoring one: with scores
9 then 1 for the same id the kept score is 1. -/
theorem interestDedup_counterexample :
    McpService.dedupeById
        [{ id := "a", conditionId := "0xa", question := "q", relevanceScore := 9 },
         { id := "a", conditionId := "0xa", question := "q2", relevanceScore := 1 }] =
      [{ id := "a", conditionId := "0xa", question := "q2", relevanceScore := 1 }] ∧
    ((1 : ℚ) < 9) := by
  constructor
  · decide
  · norm_num

/-- C6 (amended): the interest search deduplicates by market id keeping,
for each id, the LAST-encountered duplicate (JS `Map` overwrite
semantics), then truncates the relevance-sorted result to the requested
limit, so the output has at most `limit` entries and no two entries
share an id.  The second service version's `deduplicateMarkets` is the
variant that keeps the highest-scoring duplicate. -/
theorem interestSearch_dedup_spec :
    (∀ (l : List McpService.EnhancedMarket) (limit : ℕ),
      (McpService.interestPostProcess l limit).length ≤ limit) ∧
    (∀ (l : List McpService.EnhancedMarket) (limit : ℕ),
      ((McpService.interestPostProcess l limit).map (fun x => x.id)).Nodup) ∧
    (∀ (l : List McpService.EnhancedMarket) (k : String),
      (McpService.dedupeById l).find? (fun x => x.id == k) =
        l.reverse.find? (fun x => x.id == k)) ∧
    (∀ (l : List AltService.ScoredMarket) (m : AltService.ScoredMarket), m ∈ l →
      ∃ y, (AltService.deduplicateMarkets l).find? (fun x => x.id == m.id) = some y ∧
        m.relevanceScore ≤ y.relevanceScore) := by
  refine ⟨fun l limit => ?_, fun l limit => ?_, find?_dedupeById_eq_lastOcc,
    fun l m hm => dedupHighest_ge l [] m hm⟩
  · exact List.length_take_le _ _
  · have h1 := nodup_ids_dedupeById l
    have hp : List.Perm (sortByKeyDesc McpService.relKey (McpService.dedupeById l))
        (McpService.dedupeById l) := List.perm_insertionSort _ _
    have h2 : ((sortByKeyDesc McpService.relKey (McpService.dedupeById l)).map
        (fun x => x.id)).Nodup := ((hp.map (fun x => x.id)).nodup_iff).mpr h1
    have hsub : List.Sublist ((McpService.interestPostProcess l limit).map (fun x => x.id))
        ((sortByKeyDesc McpService.relKey (McpService.dedupeById l)).map (fun x => x.id)) :=
      (List.take_sublist _ _).map _
    exact h2.sublist hsub

theorem interestSearch_dedup_spec_witness :
    ∃ y, (AltService.deduplicateMarkets
        [{ id := "a", question := "q", relevanceScore := 5 }]).find?
          (fun x => x.id == ({ id := "a", question := "q", relevanceScore := 5 } :
            AltService.ScoredMarket).id) = some y ∧
      ({ id := "a", question := "q", relevanceScore := 5 } :
        AltService.ScoredMarket).relevanceScore ≤ y.relevanceScore :=
  interestSearch_dedup_spec.2.2.2 _ _ (List.mem_singleton.mpr rfl)

theorem calculateSemanticScore_nonneg (text query : String) :
    0 ≤ AltService.calculateSemanticScore text query := by
  rw [AltService.calculateSemanticScore]
  refine le_min (List.sum_nonneg ?_) (by norm_num)
  intro x hx
  obtain ⟨ck, _, rfl⟩ := List.mem_map.mp hx
  split_ifs
  · positivity
  · norm_num

theorem calculateInterestCategoryScore_nonneg (market : AltService.Market)
    (query : String) :
    0 ≤ AltService.calculateInterestCategoryScore market query := by
  simp only [AltService.calculateInterestCategoryScore]
  refine le_min (List.sum_nonneg ?_) (by norm_num)
  intro x hx
  obtain ⟨ik, _, rfl⟩ := List.mem_map.mp hx
  split_ifs <;> norm_num

theorem categoryMatchBoost_nonneg (category marketCategory : Option String) :
    0 ≤ McpService.categoryMatchBoost category marketCategory := by
  rcases category with _ | c <;> rcases marketCategory with _ | mc <;>
    simp only [McpService.categoryMatchBoost] <;> try norm_num
  split_ifs <;> norm_num

theorem categoryFilterBoost_nonneg (marketCategory eventTitle : String)
    (category : Option String) :
    0 ≤ AltService.categoryFilterBoost marketCategory eventTitle category := by
  rcases category with _ | c <;> simp only [AltService.categoryFilterBoost] <;>
    try norm_num
  split_ifs <;> norm_num

theorem recencyBoost_nonneg (dateAfterNow : String → Bool) (endDate : Option String) :
    0 ≤ AltService.recencyBoost dateAfterNow endDate := by
  rcases endDate with _ | d <;> simp only [AltService.recencyBoost] <;> try norm_num
  split_ifs <;> norm_num

/-- C4 counterexample: the second service version's scorer exceeds 1:
for a market with question "basketball" and the query "basketball" the
title loop alone contributes 1.0 + 0.5, every other contribution is
non-negative, and the cap is 10, so the returned score is above 1. -/
theorem relevance_above_one_counterexample :
    1 < AltService.calculateRelevanceScore (fun _ => false)
      { id := "1", question := "basketball" } "basketball" none := by
  have f1 : jsToLower "basketball" = "basketball" := by decide
  have f3 : jsIncludes "basketball" "basketball" = true := by decide
  have f4 : ("basketball" : String).length = 10 := by decide
  have f5 : jsToLower "" = "" := by decide
  have f6 : jsIncludes "" "basketball" = false := by decide
  have hw : (List.filter (fun w => decide (2 < w.length)) (jsSplitSpace "basketball")) =
      ["basketball"] := by decide
  have hsem := calculateSemanticScore_nonneg ("basketball" ++ " ") "basketball"
  have hsem2 := calculateSemanticScore_nonneg ("basketball" ++ " " ++ "") "basketball"
  have hint := calculateInterestCategoryScore_nonneg
    { id := "1", question := "basketball" } "basketball"
  have hcat := categoryFilterBoost_nonneg "" "" (none : Option String)
  have hrec := recencyBoost_nonneg (fun _ => false) (none : Option String)
  simp only [AltService.calculateRelevanceScore, Option.getD_none, f1, f5]
  rw [lt_min_iff]
  refine ⟨?_, by norm_num⟩
  simp only [hw, List.map_cons, List.map_nil, List.sum_cons, List.sum_nil, f3, f4, f6]
  norm_num
  linarith [hsem, hsem2, hint, hcat, hrec]

/-- C4 (amended): the mcp service's `calculateRelevanceScore` always
returns a value in [0, 1] (clamped at 1.0); the second service version's
scorer is clamped at 10 instead and returns values in [0, 10]. -/
theorem relevanceScore_bounds :
    (∀ (market : McpService.Market) (query : String) (category : Option String),
      0 ≤ McpService.calculateRelevanceScore market query category ∧
      McpService.calculateRelevanceScore market query category ≤ 1) ∧
    (∀ (dateAfterNow : String → Bool) (market : AltService.Market) (query : String)
        (category : Option String),
      0 ≤ AltService.calculateRelevanceScore dateAfterNow market query category ∧
      AltService.calculateRelevanceScore dateAfterNow market query category ≤ 10) := by
  constructor
  · intro market query category
    simp only [McpService.calculateRelevanceScore]
    constructor
    · refine le_min ?_ (by norm_num)
      have h1 : (0:ℚ) ≤ if jsIncludes (jsToLower market.question) (jsToLower query)
          then 4/5 else 0 := by split_ifs <;> norm_num
      have h2 := categoryMatchBoost_nonneg category market.category
      have h3 : (0:ℚ) ≤ ((((jsSplitSpace (jsToLower query)).filter (fun word =>
            (jsSplitSpace (jsToLower market.question)).any
              (fun qw => jsIncludes qw word))).length : ℚ) /
          ((jsSplitSpace (jsToLower query)).length : ℚ)) * (1/2) := by positivity
      have h4 : (0:ℚ) ≤ if jsIncludes (jsToLower query) "sports" ∧
          McpService.sportsTerms.any (fun term =>
            jsIncludes (jsToLower market.question) term) then 3/10 else 0 := by
        split_ifs <;> norm_num
      have h5 : (0:ℚ) ≤ if jsIncludes (jsToLower query) "politics" ∧
          McpService.politicsTerms.any (fun term =>
            jsIncludes (jsToLower market.question) term) then 4/5 else 0 := by
        split_ifs <;> norm_num
      linarith [h1, h2, h3, h4, h5]
    · exact min_le_right _ _
  · intro dateAfterNow market query category
    simp only [AltService.calculateRelevanceScore]
    constructor
    · refine le_min ?_ (by norm_num)
      have hsum : ∀ (l : List String) (f : String → ℚ), (∀ w, 0 ≤ f w) →
          0 ≤ (l.map f).sum := by
        intro l f hf
        refine List.sum_nonneg ?_
        intro x hx
        obtain ⟨w, _, rfl⟩ := List.mem_map.mp hx
        exact hf w
      have h1 := hsum ((jsSplitSpace (jsToLower query)).filter (fun w => 2 < w.length))
        (fun word => if jsIncludes (jsToLower market.question) word then
          (if 5 ≤ word.length then 1 else 7/10) +
            (if jsIncludes (jsToLower market.question) (jsToLower query) then 1/2 else 0)
          else 0)
        (fun w => by
          by_cases hA : jsIncludes (jsToLower market.question) w = true <;>
            by_cases hB : 5 ≤ w.length <;>
            by_cases hC : jsIncludes (jsToLower market.question) (jsToLower query) = true <;>
            simp [hA, hB, hC] <;> norm_num)
      have h2 := hsum ((jsSplitSpace (jsToLower query)).filter (fun w => 2 < w.length))
        (fun word => if jsIncludes (jsToLower (market.description.getD "")) word then
          (if 5 ≤ word.length then 1/2 else 3/10) else 0)
        (fun w => by
          by_cases hA : jsIncludes (jsToLower (market.description.getD "")) w = true <;>
            by_cases hB : 5 ≤ w.length <;> simp [hA, hB] <;> norm_num)
      have h3 := hsum ((jsSplitSpace (jsToLower query)).filter (fun w => 2 < w.length))
        (fun word => if jsIncludes (jsToLower (market.eventTitle.getD "")) word ||
            jsIncludes (jsToLower (market.category.getD "")) word then 2/5 else 0)
        (fun w => by
          by_cases hA : (jsIncludes (jsToLower (market.eventTitle.getD "")) w ||
              jsIncludes (jsToLower (market.category.getD "")) w) = true <;>
            simp [hA] <;> norm_num)
      have h4 := calculateSemanticScore_nonneg
        (jsToLower market.question ++ " " ++ jsToLower (market.description.getD ""))
        (jsToLower query)
      have h5 := calculateInterestCategoryScore_nonneg market (jsToLower query)
      have h6 := categoryFilterBoost_nonneg (jsToLower (market.category.getD ""))
        (jsToLower (market.eventTitle.getD "")) category
      have h7 := recencyBoost_nonneg dateAfterNow market.endDate
      linarith [h1, h2, h3, h4, h5, h6, h7]
    · exact min_le_right _ _

/-- C8: (modelled from the spec, code absent from the tree) the GTD
expiration is `T + 60s + expirationMinutes*60s`; with
`expirationMinutes = 5` it lies in `[T + 60, T + 60 + 301]`. -/
theorem gtdExpiration_spec :
    ∀ T : ℤ, (∀ m : ℤ, computeGtdExpiration T m = T + 60 + m * 60) ∧
      T + 60 ≤ computeGtdExpiration T 5 ∧
      computeGtdExpiration T 5 ≤ T + 60 + 301 := by
  intro T
  refine ⟨fun m => rfl, ?_, ?_⟩ <;>
    · simp only [computeGtdExpiration]
      omega

end Polymarket
